import Mathlib

/-!
Verification development for the gwtf groundwater-recharge package.

The definitions below are a shallow embedding of the core of the package:
the event extraction and recharge estimation of `gwtf/model.py` (class
`Model`) and the master-recession-curve code of `gwtf/mcr.py` (class `MCR`).
A pandas Series with a DatetimeIndex is modelled as a list of
(timestamp, value) pairs with the timestamp in seconds (rationals model the
finite floating-point values the code manipulates); stateful methods take
and return an explicit state record; Python code that can raise returns
`Except PyErr`.
-/

namespace Gwtf

/-- A sample of the water-table series: (timestamp in seconds, elevation).
Timestamps are seconds because `mcr.py` converts index differences with
`total_seconds() / (3600 * 24)`. -/
abbrev Sample : Type := ℚ × ℚ

/-- A water-table series `wt`: an ordered list of samples (the pandas Series
with DatetimeIndex that every method of the package receives). -/
abbrev WtSeries : Type := List Sample

/-- A pandas `Interval` between two timestamps, as produced by
`IntervalIndex.from_arrays(left=dh.index - dt, right=dh.index)`. -/
structure Interval where
  left : ℚ
  right : ℚ
deriving DecidableEq, Repr

/-- Python exceptions raised by the embedded code: `ValueError(msg)` and the
`UnboundLocalError` raised when an unassigned local variable is read. -/
inductive PyErr where
  | valueError : String → PyErr
  | unboundLocalError : String → PyErr
deriving DecidableEq, Repr

/-- Label lookup `wt[t]` on the series: the value of the first sample whose
timestamp equals `t`, with default 0 for a missing label.  Every lookup
performed by the embedded code uses a label taken from the series itself, so
under the validated-series hypothesis the default is never reached (the
pandas KeyError path is not exercised by the code under study). -/
def seriesAt (wt : WtSeries) (t : ℚ) : ℚ :=
  ((wt.find? (fun s => s.1 = t)).map Prod.snd).getD 0

/-- The change series built by `Model.get_recharge_event_intervals`
(`gwtf/model.py` lines 103-109): `dt = wt.index.diff()[1:]`,
`dh = wt.diff()[1:]`, intervals `(t[i-1], t[i]]` from
`IntervalIndex.from_arrays`, carrying the value `dh[i] = h[i] - h[i-1]`.
One entry per consecutive sample pair. -/
def changeIntervals (wt : WtSeries) : List (Interval × ℚ) :=
  (wt.zip wt.tail).map (fun p => (⟨p.1.1, p.2.1⟩, p.2.2 - p.1.2))

/-- `MCR.get_dhdt` (`gwtf/mcr.py` lines 66-95): per consecutive pair, the
time difference in days `dt = total_seconds/(3600*24)`, the elevation
difference `dh`, the rate `dh/dt` indexed at the right timestamp, keeping
only the strictly negative rates (`dhdt[dhdt < 0]`). -/
def get_dhdt (wt : WtSeries) : List (ℚ × ℚ) :=
  ((wt.zip wt.tail).map
      (fun p => (p.2.1, (p.2.2 - p.1.2) / ((p.2.1 - p.1.1) / 86400)))).filter
    (fun x => x.2 < 0)

/-- The `MCR.parameters` DataFrame (`gwtf/mcr.py` lines 32-36): rows `a` and
`b`, columns `initial`, `optimal`, `stderr`. -/
structure MCRState where
  a_initial : ℚ
  a_optimal : ℚ
  a_stderr : ℚ
  b_initial : ℚ
  b_optimal : ℚ
  b_stderr : ℚ
deriving DecidableEq, Repr

/-- A freshly constructed `MCR()`: the parameter table is filled with zeros
(`data=[[0.0, 0.0, 0.0], [0.0, 0.0, 0.0]]`), so `optimal` is `(0, 0)` before
any fit has run. -/
def mcrInit : MCRState := ⟨0, 0, 0, 0, 0, 0⟩

/-- `MCR.estimate_dhdt` (`gwtf/mcr.py` lines 97-123): if either `a` or `b`
is `None`, both are replaced by `self.parameters.optimal.values`; the result
is `-a * wt + b` applied to every value of the input. -/
def estimate_dhdt (mcr : MCRState) (wt : List ℚ) (a b : Option ℚ) : List ℚ :=
  let p : ℚ × ℚ :=
    match a, b with
    | some av, some bv => (av, bv)
    | _, _ => (mcr.a_optimal, mcr.b_optimal)
  wt.map (fun h => -p.1 * h + p.2)

/-- `MCR.get_extrapolated` (`gwtf/mcr.py` lines 151-174).  The locals `a`
and `b` are assigned only inside the `if p is None:` branch; when `p` is
given, the call `self.estimate_dhdt(wt[events.left], a, b)` reads the
unassigned local `a` and Python raises `UnboundLocalError` (the supplied `p`
is never unpacked).  When `p` is `None`, the result is
`wt[events.left] + estimate_dhdt(wt[events.left], a, b)` elementwise. -/
def get_extrapolated (mcr : MCRState) (wt : WtSeries) (events : List Interval)
    (p : Option (ℚ × ℚ)) : Except PyErr (List ℚ) :=
  match p with
  | some _ => .error (.unboundLocalError "a")
  | none =>
    let hlefts := events.map (fun e => seriesAt wt e.left)
    let recession := estimate_dhdt mcr hlefts (some mcr.a_optimal) (some mcr.b_optimal)
    .ok (List.zipWith (fun h r => h + r) hlefts recession)

/-- Message of the ValueError raised for an unknown rise rule
(`gwtf/model.py` line 113). -/
def riseRuleMsg : String := "rise_rule should be both or rises."

/-- Message of the ValueError raised when no recharge events are found
(`gwtf/model.py` lines 123-124). -/
def noEventsMsg : String := "No recharge events found."

/-- `Model.get_recharge_event_intervals` (`gwtf/model.py` lines 89-126):
build the change series, reject an unknown `rise_rule`, select the intervals
with `dh > 0` for rule `rises` or every interval for rule `both`, and raise
a ValueError when the selected `IntervalIndex` is empty. -/
def get_recharge_event_intervals (wt : WtSeries) (rise_rule : String) :
    Except PyErr (List Interval) :=
  let changes := changeIntervals wt
  if rise_rule ∈ (["both", "rises"] : List String) then
    let events_int :=
      if rise_rule = "rises" then (changes.filter (fun c => 0 < c.2)).map Prod.fst
      else changes.map Prod.fst
    if events_int.isEmpty then .error (.valueError noEventsMsg)
    else .ok events_int
  else .error (.valueError riseRuleMsg)

/-- The mutable state of a `Model` instance that `estimate_recharge` reads
or writes (`gwtf/model.py`): the series `self.wt`, the optional MCR
instance, the `self.parameters` row `sy` with its three columns, and the
attributes `self.events` and `self.rises` set during estimation. -/
structure ModelState where
  wt : WtSeries
  mcr : Option MCRState
  sy_initial : ℚ
  sy_optimal : ℚ
  sy_stderr : ℚ
  events : Option (List Interval)
  rises : Option (List (Interval × ℚ))
deriving DecidableEq, Repr

/-- The Python test `self.parameters.loc["sy", "optimal"] is nan`
(`gwtf/model.py` line 182).  The rationals of this embedding model the
finite float values the table holds; for any such value the identity
comparison with `numpy.nan` is false (reading `.loc` returns a fresh scalar
object, so the `is` test cannot succeed), hence the check is constantly
false. -/
def pyIsNan (_ : ℚ) : Bool := false

/-- Message of the ValueError raised when the specific yield is not set
(`gwtf/model.py` lines 183-185). -/
def syNotSetMsg : String := "The specific yield is not set."

/-- `Model.estimate_recharge` (`gwtf/model.py` lines 128-201), with
`fit_mcr=False` (the default; the scipy fitting branch is outside this
embedding): select the event intervals (storing them in `self.events`),
compute the left-hand elevations (extrapolated through the MCR when one is
attached, raw `wt[left]` otherwise), form the rises
`wt[right] - left_hand`, keep the strictly positive ones (stored in
`self.rises`), resolve the specific yield (an explicit `sy` overwrites
`parameters.loc["sy", "optimal"]`; `sy=None` reads that entry after the
`is nan` check), multiply, re-key each value to the interval's right
endpoint, and clip negative values to zero. -/
def estimate_recharge (m : ModelState) (sy : Option ℚ) (rise_rule : String) :
    Except PyErr (ModelState × List (ℚ × ℚ)) :=
  match get_recharge_event_intervals m.wt rise_rule with
  | .error e => .error e
  | .ok events_int =>
    let m1 : ModelState := { m with events := some events_int }
    let left_hand : Except PyErr (List ℚ) :=
      match m1.mcr with
      | some mcrSt => get_extrapolated mcrSt m1.wt events_int none
      | none => .ok (events_int.map (fun e => seriesAt m1.wt e.left))
    match left_hand with
    | .error e => .error e
    | .ok lh =>
      let rs := (List.zipWith (fun e l => (e, seriesAt m1.wt e.right - l)) events_int lh).filter
        (fun r => 0 < r.2)
      let m2 : ModelState := { m1 with rises := some rs }
      let syres : Except PyErr (ℚ × ModelState) :=
        match sy with
        | none =>
          if pyIsNan m2.sy_optimal then .error (.valueError syNotSetMsg)
          else .ok (m2.sy_optimal, m2)
        | some v => .ok (v, { m2 with sy_optimal := v })
      match syres with
      | .error e => .error e
      | .ok sm =>
        let recharge := rs.map (fun r => (r.1.right, r.2 * sm.1))
        .ok (sm.2, recharge.map (fun r => if r.2 < 0 then (r.1, (0 : ℚ)) else r))

/-- A validated series: strictly increasing timestamps (the precondition the
external `validate_data` collaborator guarantees). -/
def validSeries (wt : WtSeries) : Prop :=
  List.Chain' (fun s t : Sample => s.1 < t.1) wt

/-- A strictly monotonically decreasing series: each value is below the
previous one. -/
def strictlyFalling (wt : WtSeries) : Prop :=
  List.Chain' (fun s t : Sample => t.2 < s.2) wt

instance (wt : WtSeries) : Decidable (validSeries wt) := by
  unfold validSeries; infer_instance

instance (wt : WtSeries) : Decidable (strictlyFalling wt) := by
  unfold strictlyFalling; infer_instance

/-- The positive corrected rises computed by `estimate_recharge` when no MCR
is attached: for each selected interval, `wt[right] - wt[left]`, keeping
only the strictly positive values (`rises[rises.values > 0]`). -/
def rsOf (wt : WtSeries) (evs : List Interval) : List (Interval × ℚ) :=
  (List.zipWith (fun e l => (e, seriesAt wt e.right - l)) evs
    (evs.map (fun e => seriesAt wt e.left))).filter (fun r => 0 < r.2)

/-! Concrete series used to instantiate the theorems (timestamps are whole
days expressed in seconds: 86400 s apart). -/

/-- A two-sample rising series: days 0 and 1, elevations 1 and 2. -/
def wtRise2 : WtSeries := [(0, 1), (86400, 2)]

/-- A two-sample falling series: days 0 and 1, elevations 2 and 1. -/
def wtFall2 : WtSeries := [(0, 2), (86400, 1)]

/-- A three-sample series with one rise and one fall: elevations 1, 3, 2 on
days 0, 1, 2. -/
def wtMix3 : WtSeries := [(0, 1), (86400, 3), (172800, 2)]

/-- A three-sample rising series sampled on days 0, 1 and 3 (an irregular
two-day gap before the last sample): elevations 10, 11, 12. -/
def wt3 : WtSeries := [(0, 10), (86400, 11), (259200, 12)]

/-- The interval from day 0 to day 1. -/
def ivA : Interval := ⟨0, 86400⟩

/-- The interval from day 1 to day 2. -/
def ivB : Interval := ⟨86400, 172800⟩

/-- The interval from day 1 to day 3. -/
def ivC : Interval := ⟨86400, 259200⟩

/-- A fresh `Model` on `wt3` with no MCR attached: the `sy` parameter row is
initialized to `(0.1, 0.1, 0.005)` (`gwtf/model.py` lines 50-51). -/
def m3 : ModelState := ⟨wt3, none, 1/10, 1/10, 1/200, none, none⟩

/-- A fresh `Model` on the two-sample rising series `wtRise2`. -/
def mW0 : ModelState := ⟨wtRise2, none, 1/10, 1/10, 1/200, none, none⟩

/-- The state of `mW0` after `estimate_recharge(sy=1/5, rise_rule="rises")`:
events and rises recorded, `parameters.loc["sy", "optimal"]` overwritten
with 1/5, all other entries unchanged. -/
def mW2 : ModelState :=
  ⟨wtRise2, none, 1/10, 1/5, 1/200, some [⟨0, 86400⟩], some [(⟨0, 86400⟩, 1)]⟩

/-! Helper lemmas about the embedded operations. -/

theorem changeIntervals_length (wt : WtSeries) :
    (changeIntervals wt).length = wt.length - 1 := by
  simp only [changeIntervals, List.length_map, List.length_zip, List.length_tail]
  omega

theorem ci_bound1 (wt : WtSeries) (i : ℕ) (hi : i < (changeIntervals wt).length) :
    i < wt.length := by
  have h := changeIntervals_length wt; omega

theorem ci_bound2 (wt : WtSeries) (i : ℕ) (hi : i < (changeIntervals wt).length) :
    i + 1 < wt.length := by
  have h := changeIntervals_length wt; omega

theorem changeIntervals_get (wt : WtSeries) (i : ℕ)
    (hi : i < (changeIntervals wt).length) :
    (changeIntervals wt).get ⟨i, hi⟩ =
      (⟨(wt.get ⟨i, ci_bound1 wt i hi⟩).1, (wt.get ⟨i + 1, ci_bound2 wt i hi⟩).1⟩,
        (wt.get ⟨i + 1, ci_bound2 wt i hi⟩).2 - (wt.get ⟨i, ci_bound1 wt i hi⟩).2) := by
  induction wt generalizing i with
  | nil => simp [changeIntervals] at hi
  | cons a t ih =>
    cases t with
    | nil => simp [changeIntervals] at hi
    | cons b u =>
      cases i with
      | zero => rfl
      | succ j =>
        have hj : j < (changeIntervals (b :: u)).length := by
          have h1 := changeIntervals_length (a :: b :: u)
          have h2 := changeIntervals_length (b :: u)
          simp only [List.length_cons] at h1 h2
          omega
        exact ih j hj

theorem zipWith_map_right {α β γ : Type} (k : α → β → γ) (f : α → β) (l : List α) :
    List.zipWith k l (l.map f) = l.map (fun x => k x (f x)) := by
  induction l with
  | nil => rfl
  | cons a t ih => simp [ih]

theorem valid_pairwise (wt : WtSeries) (h : validSeries wt) :
    wt.Pairwise (fun s t => s.1 < t.1) := by
  haveI : IsTrans Sample (fun s t : Sample => s.1 < t.1) :=
    ⟨fun _ _ _ hxy hyz => lt_trans hxy hyz⟩
  exact List.chain'_iff_pairwise.mp h

theorem seriesAt_mem (wt : WtSeries)
    (hp : wt.Pairwise (fun s t => s.1 < t.1)) (s : Sample) (hs : s ∈ wt) :
    seriesAt wt s.1 = s.2 := by
  induction wt with
  | nil => cases hs
  | cons a t ih =>
    rw [List.pairwise_cons] at hp
    cases hs with
    | head => simp [seriesAt]
    | tail _ hmem =>
      have hlt : a.1 < s.1 := hp.1 s hmem
      have hne : a.1 ≠ s.1 := ne_of_lt hlt
      unfold seriesAt
      rw [List.find?_cons_of_neg _ (by simpa using hne)]
      exact ih hp.2 hmem

theorem changeIntervals_lookup (wt : WtSeries) (hval : validSeries wt)
    (c : Interval × ℚ) (hc : c ∈ changeIntervals wt) :
    seriesAt wt c.1.right - seriesAt wt c.1.left = c.2 := by
  obtain ⟨⟨i, hi⟩, rfl⟩ := List.mem_iff_get.mp hc
  have hp := valid_pairwise wt hval
  rw [changeIntervals_get]
  simp only
  rw [seriesAt_mem wt hp _ (List.get_mem wt _ _),
    seriesAt_mem wt hp _ (List.get_mem wt _ _)]

theorem changeIntervals_neg_of_falling (wt : WtSeries) (h : strictlyFalling wt) :
    ∀ c ∈ changeIntervals wt, c.2 < 0 := by
  induction wt with
  | nil => intro c hc; cases hc
  | cons a t ih =>
    cases t with
    | nil => intro c hc; cases hc
    | cons b u =>
      rw [strictlyFalling, List.chain'_cons] at h
      intro c hc
      rw [show changeIntervals (a :: b :: u) =
          (⟨a.1, b.1⟩, b.2 - a.2) :: changeIntervals (b :: u) from rfl] at hc
      cases hc with
      | head => simpa using sub_neg.mpr h.1
      | tail _ hmem => exact ih h.2 c hmem

theorem both_result (wt : WtSeries) :
    get_recharge_event_intervals wt "both" =
      (if ((changeIntervals wt).map Prod.fst).isEmpty then
        .error (.valueError noEventsMsg)
      else .ok ((changeIntervals wt).map Prod.fst)) := by
  unfold get_recharge_event_intervals
  rw [if_pos (by decide)]
  simp only [if_neg (by decide : ¬ ("both" = "rises"))]

theorem rises_result (wt : WtSeries) :
    get_recharge_event_intervals wt "rises" =
      (if (((changeIntervals wt).filter (fun c => 0 < c.2)).map Prod.fst).isEmpty then
        .error (.valueError noEventsMsg)
      else .ok (((changeIntervals wt).filter (fun c => 0 < c.2)).map Prod.fst)) := by
  unfold get_recharge_event_intervals
  rw [if_pos (by decide)]
  simp

theorem changeIntervals_ne_nil (wt : WtSeries) (h2 : 2 ≤ wt.length) :
    changeIntervals wt ≠ [] := by
  intro hnil
  have := congrArg List.length hnil
  rw [changeIntervals_length] at this
  simp at this
  omega

theorem both_ok (wt : WtSeries) (h2 : 2 ≤ wt.length) :
    get_recharge_event_intervals wt "both" =
      .ok ((changeIntervals wt).map Prod.fst) := by
  rw [both_result]
  rw [if_neg]
  simp only [List.isEmpty_iff, List.map_eq_nil_iff]
  exact fun h => changeIntervals_ne_nil wt h2 h

/-! Claim theorems. -/

/-- C1 (counterexample): on a freshly constructed `MCR` (no fit has run),
`estimate_dhdt` with no explicit parameters does not raise.  It returns
exactly the result of evaluating the model with the zero-initialized
parameters `a = 0, b = 0`: for the series `[10]` it returns `[0]`, the same
value as an explicit call with `a = 0, b = 0`.  This refutes the claim that
the call fails loudly and never silently returns the zero model. -/
theorem C1_counterexample :
    estimate_dhdt mcrInit [10] none none = [0] ∧
    estimate_dhdt mcrInit [10] none none =
      estimate_dhdt mcrInit [10] (some 0) (some 0) := by
  constructor <;> norm_num [estimate_dhdt, mcrInit]

/-- C1 (amended): on a freshly constructed `MCR`, `estimate_dhdt` with no
explicit parameters silently falls back to the zero-initialized parameter
table and returns the all-zero series `-0 * h + 0 = 0` for every input,
rather than raising an error. -/
theorem C1_amended (wt : List ℚ) :
    estimate_dhdt mcrInit wt none none = wt.map (fun _ => (0 : ℚ)) := by
  unfold estimate_dhdt mcrInit
  simp

/-- C4 (confirmed): for every recession-model state and every event-interval
list, `get_extrapolated` (with the default `p=None`) returns, for each
interval, exactly `h_left + (-a * h_left + b)` where `h_left = wt[left]` and
`(a, b)` are the stored optimal parameters: the per-day rate is added once
as a unit-interval displacement, with no multiplication by the interval's
elapsed days (the result does not depend on `e.right` at all). -/
theorem C4_extrapolated_unit_step (mcr : MCRState) (wt : WtSeries)
    (events : List Interval) :
    get_extrapolated mcr wt events none =
      .ok (events.map (fun e =>
        seriesAt wt e.left + (-mcr.a_optimal * seriesAt wt e.left + mcr.b_optimal))) := by
  unfold get_extrapolated estimate_dhdt
  simp [zipWith_map_right, List.map_map]

/-- C9 (confirmed): calling `get_extrapolated` with an explicit parameter
argument `p` (any non-`None` value) always fails with `UnboundLocalError`:
the locals `a` and `b` are assigned only in the `p is None` branch and `p`
itself is never unpacked, so the supplied parameters cannot be used. -/
theorem C9_explicit_p_unbound (mcr : MCRState) (wt : WtSeries)
    (events : List Interval) (q : ℚ × ℚ) :
    get_extrapolated mcr wt events (some q) =
      .error (.unboundLocalError "a") := rfl

/-- C8 (counterexample): `get_dhdt` on a one-sample series does not fail:
it returns the empty rate series (the pairwise diff of a singleton is empty,
so every later step operates on empty data without error).  This refutes
the claim that the call fails for series with fewer than 2 samples. -/
theorem C8_counterexample : get_dhdt [(0, 5)] = [] := rfl

/-- C8 (amended): for every series with fewer than 2 samples, `get_dhdt`
returns the empty fall-rate series (no error is raised). -/
theorem C8_amended (wt : WtSeries) (h : wt.length < 2) : get_dhdt wt = [] := by
  cases wt with
  | nil => rfl
  | cons a t =>
    cases t with
    | nil => rfl
    | cons b u => simp only [List.length_cons] at h; omega

/-- C8 (witness): the amended theorem applied to the concrete one-sample
series `[(3, 4)]`. -/
theorem C8_witness : get_dhdt [(3, 4)] = [] :=
  C8_amended [(3, 4)] (by decide)

/-- C5 (confirmed): for every series with at least 2 samples, rule `both`
succeeds and returns one interval per consecutive sample pair: exactly
`len(series) - 1` intervals, the i-th (0-based) spanning from timestamp
`t[i]` to `t[i+1]`, and the underlying change series carries the value
`h[i+1] - h[i]` exactly. -/
theorem C5_all_rule (wt : WtSeries) (h2 : 2 ≤ wt.length) :
    get_recharge_event_intervals wt "both" =
      .ok ((changeIntervals wt).map Prod.fst) ∧
    ((changeIntervals wt).map Prod.fst).length = wt.length - 1 ∧
    ∀ (i : ℕ) (hi : i < (changeIntervals wt).length),
      (changeIntervals wt).get ⟨i, hi⟩ =
        (⟨(wt.get ⟨i, ci_bound1 wt i hi⟩).1, (wt.get ⟨i + 1, ci_bound2 wt i hi⟩).1⟩,
          (wt.get ⟨i + 1, ci_bound2 wt i hi⟩).2 - (wt.get ⟨i, ci_bound1 wt i hi⟩).2) := by
  refine ⟨both_ok wt h2, ?_, fun i hi => changeIntervals_get wt i hi⟩
  rw [List.length_map, changeIntervals_length]

/-- C5 (witness): the theorem applied to the concrete three-sample series
`wtMix3`, whose rule-`both` selection returns its two consecutive
intervals. -/
theorem C5_witness :
    get_recharge_event_intervals wtMix3 "both" =
      .ok ((changeIntervals wtMix3).map Prod.fst) ∧
    ((changeIntervals wtMix3).map Prod.fst).length = wtMix3.length - 1 := by
  have h := C5_all_rule wtMix3 (by decide)
  exact ⟨h.1, h.2.1⟩

theorem ok_of_guard {X l : List Interval}
    (h : (if X.isEmpty then (.error (PyErr.valueError noEventsMsg))
          else (.ok X) : Except PyErr (List Interval)) = .ok l) :
    l = X ∧ X ≠ [] := by
  by_cases he : X.isEmpty
  · rw [if_pos he] at h; cases h
  · rw [if_neg he] at h
    exact ⟨(Except.ok.inj h).symm, by simpa using he⟩

theorem wtRise2_changes : changeIntervals wtRise2 = [(ivA, 1)] := by
  simp only [changeIntervals, wtRise2, ivA, List.tail_cons, List.zip_cons_cons,
    List.zip_nil_right, List.map_cons, List.map_nil]
  norm_num

theorem wtFall2_changes : changeIntervals wtFall2 = [(ivA, -1)] := by
  simp only [changeIntervals, wtFall2, ivA, List.tail_cons, List.zip_cons_cons,
    List.zip_nil_right, List.map_cons, List.map_nil]
  norm_num

theorem wtMix3_changes : changeIntervals wtMix3 = [(ivA, 2), (ivB, -1)] := by
  simp only [changeIntervals, wtMix3, ivA, ivB, List.tail_cons, List.zip_cons_cons,
    List.zip_nil_right, List.map_cons, List.map_nil]
  norm_num

/-- C6 (counterexample): on the two-sample rising series `wtRise2` the
selection under rule `rises` returns exactly the same interval list as rule
`both` (both return `[ivA]`), so the `rises` result is not a strict (proper)
subset of the `both` result. -/
theorem C6_counterexample :
    get_recharge_event_intervals wtRise2 "rises" =
      get_recharge_event_intervals wtRise2 "both" ∧
    get_recharge_event_intervals wtRise2 "rises" = .ok [ivA] := by
  constructor
  · rw [rises_result, both_result, wtRise2_changes]
    norm_num
  · rw [rises_result, wtRise2_changes]
    norm_num

/-- C6 (amended): whenever both rules succeed on a series with at least 2
samples, the interval set selected under rule `rises` is a subset (not
necessarily strict) of the set selected under rule `both`. -/
theorem C6_amended (wt : WtSeries) (h2 : 2 ≤ wt.length) (l1 l2 : List Interval)
    (h1 : get_recharge_event_intervals wt "rises" = .ok l1)
    (hb : get_recharge_event_intervals wt "both" = .ok l2) :
    l1 ⊆ l2 := by
  rw [rises_result] at h1
  rw [both_result] at hb
  obtain ⟨rfl, -⟩ := ok_of_guard h1
  obtain ⟨rfl, -⟩ := ok_of_guard hb
  exact List.map_subset _ (List.filter_sublist _).subset

/-- C6 (witness): the amended theorem applied to `wtMix3`, whose `rises`
selection `[ivA]` is contained in its `both` selection `[ivA, ivB]`. -/
theorem C6_witness : [ivA] ⊆ [ivA, ivB] :=
  C6_amended wtMix3 (by norm_num [wtMix3]) [ivA] [ivA, ivB]
    (by rw [rises_result, wtMix3_changes]; norm_num)
    (by rw [both_result, wtMix3_changes]; norm_num)

/-- C7 (confirmed): event selection never returns an empty interval list
(an empty selection raises the "no events" ValueError instead), and for
every strictly monotonically decreasing series of length at least 2, rule
`rises` selects zero intervals and raises, while rule `both` returns a
non-empty set of `N - 1` intervals. -/
theorem C7_empty_selection_raises :
    (∀ (wt : WtSeries) (rule : String) (l : List Interval),
        get_recharge_event_intervals wt rule = .ok l → l ≠ []) ∧
    (∀ wt : WtSeries, 2 ≤ wt.length → strictlyFalling wt →
        get_recharge_event_intervals wt "rises" =
          .error (PyErr.valueError noEventsMsg) ∧
        ∃ l, get_recharge_event_intervals wt "both" = .ok l ∧
          l.length = wt.length - 1) := by
  constructor
  · intro wt rule l h
    by_cases hr : rule = "rises"
    · subst hr
      rw [rises_result] at h
      obtain ⟨rfl, hne⟩ := ok_of_guard h
      exact hne
    · by_cases hb : rule = "both"
      · subst hb
        rw [both_result] at h
        obtain ⟨rfl, hne⟩ := ok_of_guard h
        exact hne
      · simp only [get_recharge_event_intervals] at h
        rw [if_neg (by simp [hr, hb])] at h
        cases h
  · intro wt h2 hfall
    have hfilter : (changeIntervals wt).filter (fun c => 0 < c.2) = [] := by
      rw [List.filter_eq_nil_iff]
      intro c hc
      simp only [decide_eq_true_eq]
      exact not_lt.mpr (le_of_lt (changeIntervals_neg_of_falling wt hfall c hc))
    refine ⟨?_, (changeIntervals wt).map Prod.fst, both_ok wt h2, ?_⟩
    · rw [rises_result, hfilter]
      simp
    · rw [List.length_map, changeIntervals_length]

/-- C7 (witness): the theorem applied to the concrete strictly decreasing
two-sample series `wtFall2`: rule `rises` raises the "no events" error. -/
theorem C7_witness :
    get_recharge_event_intervals wtFall2 "rises" =
      .error (PyErr.valueError noEventsMsg) :=
  (C7_empty_selection_raises.2 wtFall2 (by norm_num [wtFall2])
    (by norm_num [strictlyFalling, wtFall2, List.chain'_cons])).1

theorem estimate_recharge_some_eval (m : ModelState) (v : ℚ) (rule : String)
    (evs : List Interval)
    (hsel : get_recharge_event_intervals m.wt rule = .ok evs)
    (hmcr : m.mcr = none) :
    estimate_recharge m (some v) rule =
      .ok ({ m with
              events := some evs
              rises := some (rsOf m.wt evs)
              sy_optimal := v },
        ((rsOf m.wt evs).map (fun r => (r.1.right, r.2 * v))).map
          (fun r => if r.2 < 0 then (r.1, (0 : ℚ)) else r)) := by
  obtain ⟨wt0, mcr0, i0, o0, s0, ev0, rs0⟩ := m
  simp only at hsel hmcr
  subst hmcr
  unfold estimate_recharge
  rw [hsel]
  dsimp only [rsOf]

theorem estimate_reuse (m : ModelState) (rule : String) :
    estimate_recharge m none rule = estimate_recharge m (some m.sy_optimal) rule := by
  obtain ⟨wt0, mcr0, i0, o0, s0, ev0, rs0⟩ := m
  unfold estimate_recharge
  dsimp only
  cases hsel : get_recharge_event_intervals wt0 rule with
  | error e => rfl
  | ok evs =>
    cases mcr0 with
    | none => simp [pyIsNan]
    | some mcrSt =>
      dsimp only
      cases hlh : get_extrapolated mcrSt wt0 evs none with
      | error e => rfl
      | ok lh => simp [pyIsNan]

theorem wt3_changes : changeIntervals wt3 = [(ivA, 1), (ivC, 1)] := by
  simp only [changeIntervals, wt3, ivA, ivC, List.tail_cons, List.zip_cons_cons,
    List.zip_nil_right, List.map_cons, List.map_nil]
  norm_num

/-- C2 (counterexample): on the strictly decreasing two-sample series
`wtFall2` with rule `both`, event selection succeeds (one interval) but the
corrected rise `1 - 2 = -1` is not positive, and `estimate_recharge` does
not raise: it returns an empty recharge series (with the empty rise list
recorded in `self.rises`).  This refutes the claim that a "no recharge"
error is raised. -/
theorem C2_counterexample :
    estimate_recharge ⟨wtFall2, none, 1/10, 1/10, 1/200, none, none⟩
      (some (1/10)) "both" =
      .ok (⟨wtFall2, none, 1/10, 1/10, 1/200, some [ivA], some []⟩, []) := by
  have hsel : get_recharge_event_intervals wtFall2 "both" = .ok [ivA] := by
    rw [both_result, wtFall2_changes]; norm_num
  rw [estimate_recharge_some_eval _ (1/10) "both" [ivA] hsel rfl]
  have hrs : rsOf wtFall2 [ivA] = [] := by
    norm_num [rsOf, seriesAt, wtFall2, ivA]
  dsimp only
  rw [hrs]
  rfl

/-- C2 (amended): for every model state, yield and rule for which event
selection succeeds, whose left-hand computation (MCR-extrapolated when an
MCR is attached, raw `wt[left]` otherwise) yields `lh`, and for which zero
intervals have strictly positive net rise after that correction,
`estimate_recharge` does not raise: it returns an empty recharge series
(with the events, the empty rise list and the supplied `sy` recorded in the
model state). -/
theorem C2_amended (m : ModelState) (v : ℚ) (rule : String)
    (evs : List Interval) (lh : List ℚ)
    (hsel : get_recharge_event_intervals m.wt rule = .ok evs)
    (hlh : (match m.mcr with
        | some mcrSt => get_extrapolated mcrSt m.wt evs none
        | none => .ok (evs.map (fun e => seriesAt m.wt e.left)) :
          Except PyErr (List ℚ)) = .ok lh)
    (hempty : (List.zipWith (fun e l => (e, seriesAt m.wt e.right - l)) evs lh).filter
        (fun r => 0 < r.2) = []) :
    estimate_recharge m (some v) rule =
      .ok ({ m with events := some evs, rises := some [], sy_optimal := v }, []) := by
  obtain ⟨wt0, mcr0, i0, o0, s0, ev0, rs0⟩ := m
  unfold estimate_recharge
  dsimp only at hsel hlh hempty ⊢
  rw [hsel]
  dsimp only
  cases mcr0 with
  | none =>
    dsimp only at hlh ⊢
    injection hlh with hlh2
    subst hlh2
    rw [hempty]
    rfl
  | some mcrSt =>
    dsimp only at hlh ⊢
    rw [hlh]
    dsimp only
    rw [hempty]
    rfl

/-- C2 (witness): the amended theorem applied to the concrete strictly
decreasing series `wtFall2` (no MCR, rule `both`, `sy = 1/5`): the single
corrected rise is `1 - 2 = -1`, the filter is empty, and the call returns
an empty recharge series. -/
theorem C2_witness :
    estimate_recharge ⟨wtFall2, none, 1/10, 1/10, 1/200, none, none⟩
      (some (1/5)) "both" =
      .ok (⟨wtFall2, none, 1/10, 1/5, 1/200, some [ivA], some []⟩, []) :=
  C2_amended ⟨wtFall2, none, 1/10, 1/10, 1/200, none, none⟩ (1/5) "both" [ivA]
    ([ivA].map (fun e => seriesAt wtFall2 e.left))
    (by show get_recharge_event_intervals wtFall2 "both" = .ok [ivA]
        rw [both_result, wtFall2_changes]; norm_num)
    rfl
    (by show rsOf wtFall2 [ivA] = []
        norm_num [rsOf, seriesAt, wtFall2, ivA])

/-- C3 (code evaluation at the failing input): on the rising series `wt3`
sampled on days 0, 1 and 3, `estimate_recharge` with `sy = 1/10` returns
the recharge series keyed only at the event right endpoints 86400 s (day 1)
and 259200 s (day 3).  The returned series is not resampled to the daily
frequency of `settings["freq"]` and contains no backfilled bucket for day 2
(172800 s), contradicting the function's own docstring ("The recharge is
resampled to the frequency defined in self.settings['freq']. Missing values
are filled by backfilling."). -/
theorem C3_no_resample_eval :
    estimate_recharge m3 (some (1/10)) "rises" =
      .ok (⟨wt3, none, 1/10, 1/10, 1/200, some [ivA, ivC],
        some [(ivA, 1), (ivC, 1)]⟩,
        [(86400, 1/10), (259200, 1/10)]) := by
  have hsel : get_recharge_event_intervals m3.wt "rises" = .ok [ivA, ivC] := by
    show get_recharge_event_intervals wt3 "rises" = .ok [ivA, ivC]
    rw [rises_result, wt3_changes]; norm_num
  rw [estimate_recharge_some_eval m3 (1/10) "rises" [ivA, ivC] hsel rfl]
  have hrs : rsOf wt3 [ivA, ivC] = [(ivA, 1), (ivC, 1)] := by
    norm_num [rsOf, seriesAt, wt3, ivA, ivC]
  dsimp only [m3]
  rw [hrs]
  norm_num [ivA, ivC]

/-- C10 (confirmed): whenever `estimate_recharge` with an explicit `sy = v`
returns successfully, the resulting model state has
`parameters.loc["sy", "optimal"] = v` while the `initial` and `stderr`
entries of the parameter table are unchanged, and the mutation persists: a
subsequent call on the new state with `sy=None` behaves exactly like a call
with `sy = v`. -/
theorem C10_sy_mutation (m : ModelState) (v : ℚ) (rule : String)
    (m2 : ModelState) (rech : List (ℚ × ℚ))
    (h : estimate_recharge m (some v) rule = .ok (m2, rech)) :
    m2.sy_optimal = v ∧ m2.sy_initial = m.sy_initial ∧
    m2.sy_stderr = m.sy_stderr ∧
    estimate_recharge m2 none rule = estimate_recharge m2 (some v) rule := by
  obtain ⟨wt0, mcr0, i0, o0, s0, ev0, rs0⟩ := m
  unfold estimate_recharge at h
  dsimp only at h
  cases hsel : get_recharge_event_intervals wt0 rule with
  | error e => rw [hsel] at h; cases h
  | ok evs =>
    rw [hsel] at h
    dsimp only at h
    cases mcr0 with
    | none =>
      injection h with hh
      injection hh with hs hr
      subst hs
      exact ⟨rfl, rfl, rfl, estimate_reuse _ rule⟩
    | some mcrSt =>
      dsimp only at h
      cases hlh : get_extrapolated mcrSt wt0 evs none with
      | error e => rw [hlh] at h; cases h
      | ok lh =>
        rw [hlh] at h
        dsimp only at h
        injection h with hh
        injection hh with hs hr
        subst hs
        exact ⟨rfl, rfl, rfl, estimate_reuse _ rule⟩

/-- C10 (witness): the theorem applied to a fresh model on the rising
series `wtRise2` with `sy = 1/5`: the call succeeds, the optimal `sy` entry
becomes 1/5 while `initial` and `stderr` are unchanged, and a later
`sy=None` call on the resulting state `mW2` equals the explicit `sy = 1/5`
call. -/
theorem C10_witness :
    mW2.sy_optimal = 1/5 ∧ mW2.sy_initial = mW0.sy_initial ∧
    mW2.sy_stderr = mW0.sy_stderr ∧
    estimate_recharge mW2 none "rises" = estimate_recharge mW2 (some (1/5)) "rises" :=
  C10_sy_mutation mW0 (1/5) "rises" mW2 [(86400, 1/5)] (by
    have hsel : get_recharge_event_intervals mW0.wt "rises" = .ok [ivA] := by
      show get_recharge_event_intervals wtRise2 "rises" = .ok [ivA]
      rw [rises_result, wtRise2_changes]; norm_num
    rw [estimate_recharge_some_eval mW0 (1/5) "rises" [ivA] hsel rfl]
    have hrs : rsOf wtRise2 [ivA] = [(ivA, 1)] := by
      norm_num [rsOf, seriesAt, wtRise2, ivA]
    dsimp only [mW0]
    rw [hrs]
    norm_num [mW2, ivA])

end Gwtf
